import Mathlib

/-!
Shallow embedding of the word-runner gameplay core: the scoring engine
(src/src/systems/ScoreSystem.ts), the difficulty controller
(src/src/systems/DifficultySystem.ts and the count-gated variant), the word
selector (src/src/systems/WordManager.ts) and the gate progress/collision
logic (src/src/scenes/GameScene.ts and the Game3D animate loop).
JavaScript numbers are modelled as rationals (ℚ) and integer counters as ℕ/ℤ;
calls to Math.random are modelled as explicit choice parameters (an index that
is reduced modulo the length of the list it draws from, and a tape of numbers
driving the Fisher-Yates shuffle).
-/

namespace WordRunner

/-- Lanes of the runner track, src/src/types.ts. -/
inductive Lane where
  | left
  | center
  | right
deriving DecidableEq, Repr

/-- Question direction, src/src/types.ts. -/
inductive QuestionMode where
  | englishToTarget
  | targetToEnglish
deriving DecidableEq, Repr

/-- Vocabulary word record, src/src/types.ts. -/
structure Word where
  target : String
  pronunciation : String
  english : String
  category : String
deriving DecidableEq, Repr

/-! ## ScoreSystem (src/src/systems/ScoreSystem.ts) -/

/-- Result record returned by ScoreSystem.calculateScore. -/
structure ScoreResult where
  basePoints : ℤ
  speedBonus : ℤ
  streakBonus : ℤ
  multiplier : ℚ
  totalPoints : ℤ
deriving DecidableEq, Repr

/-- Private fields of the ScoreSystem class. -/
structure ScoreState where
  score : ℤ
  streak : ℕ
  maxStreak : ℕ
  correctAnswers : ℕ
  totalAnswers : ℕ
deriving DecidableEq, Repr

/-- Field initializers of ScoreSystem (all zero). -/
def initialScoreState : ScoreState :=
  { score := 0, streak := 0, maxStreak := 0, correctAnswers := 0, totalAnswers := 0 }

/-- ScoreSystem.calculateScore, lines 16-59.  Returns the updated private
state together with the ScoreResult.  The literal 0.2 of the source is the
exact rational 2/10 here; for the levels the game passes (1..6) the floor of
the product agrees with the IEEE-double computation of the source. -/
def calculateScore (s : ScoreState) (correct : Bool) (decisionTimeMs : ℚ)
    (hskLevel : ℕ) : ScoreState × ScoreResult :=
  let s1 : ScoreState := { s with totalAnswers := s.totalAnswers + 1 }
  if !correct then
    ({ s1 with streak := 0 },
     { basePoints := 0, speedBonus := 0, streakBonus := 0, multiplier := 1,
       totalPoints := 0 })
  else
    let s2 : ScoreState :=
      { s1 with correctAnswers := s1.correctAnswers + 1, streak := s1.streak + 1 }
    let s3 : ScoreState := { s2 with maxStreak := max s2.maxStreak s2.streak }
    let basePoints : ℤ := 100
    let speedBonus : ℤ := if decisionTimeMs < 1000 then 50 else 0
    let streakBonus : ℤ :=
      if s3.streak = 5 then 200
      else if s3.streak = 10 then 500
      else if 10 < s3.streak ∧ s3.streak % 5 = 0 then 300
      else 0
    let multiplier : ℚ := 1 + ((hskLevel : ℚ) - 1) * (2 / 10)
    let totalPoints : ℤ :=
      Int.floor (((basePoints + speedBonus : ℤ) : ℚ) * multiplier) + streakBonus
    ({ s3 with score := s3.score + totalPoints },
     { basePoints := basePoints, speedBonus := speedBonus,
       streakBonus := streakBonus, multiplier := multiplier,
       totalPoints := totalPoints })

/-- ScoreSystem.reset, lines 86-92. -/
def resetScore : ScoreState := initialScoreState

/-- Operations that mutate a ScoreSystem instance. -/
inductive ScoreOp where
  | calcScore (correct : Bool) (decisionTimeMs : ℚ) (hskLevel : ℕ)
  | reset
deriving Repr

/-- Applies one ScoreSystem operation to the private state. -/
def applyScoreOp (s : ScoreState) : ScoreOp → ScoreState
  | .calcScore c t h => (calculateScore s c t h).1
  | .reset => resetScore

/-- Applies a sequence of ScoreSystem operations from left to right. -/
def applyScoreOps (s : ScoreState) : List ScoreOp → ScoreState
  | [] => s
  | op :: ops => applyScoreOps (applyScoreOp s op) ops

/-- Structural invariant of the ScoreSystem private state. -/
def ScoreInv (s : ScoreState) : Prop :=
  s.streak ≤ s.maxStreak ∧ s.correctAnswers ≤ s.totalAnswers ∧ 0 ≤ s.score

/-! ## DifficultySystem -/

/-- Settings record, src/src/systems/DifficultySystem.ts lines 1-5. -/
structure DifficultySettings where
  hskLevel : ℕ
  speedMultiplier : ℚ
  decisionTime : ℕ
deriving DecidableEq, Repr

/-- Row of the DIFFICULTY_THRESHOLDS table. -/
structure DifficultyThreshold where
  distance : ℕ
  hskLevel : ℕ
  speed : ℚ
  decisionTime : ℕ
deriving DecidableEq, Repr

/-- DIFFICULTY_THRESHOLDS table, src/src/systems/DifficultySystem.ts lines 7-14. -/
def DIFFICULTY_THRESHOLDS : List DifficultyThreshold :=
  [ { distance := 0, hskLevel := 1, speed := 1, decisionTime := 3000 },
    { distance := 500, hskLevel := 2, speed := 11/10, decisionTime := 2700 },
    { distance := 1500, hskLevel := 3, speed := 12/10, decisionTime := 2400 },
    { distance := 3000, hskLevel := 4, speed := 13/10, decisionTime := 2100 },
    { distance := 5000, hskLevel := 5, speed := 14/10, decisionTime := 1800 },
    { distance := 8000, hskLevel := 6, speed := 15/10, decisionTime := 1500 } ]

/-- Constructor state of DifficultySystem (both variants). -/
def initialDifficultySettings : DifficultySettings :=
  { hskLevel := 1, speedMultiplier := 1, decisionTime := 3000 }

/-- DifficultySystem.update of the distance-gated variant,
src/src/systems/DifficultySystem.ts lines 32-54: scan the threshold table from
the highest tier down and adopt the first tier whose distance bound is met;
if no tier matches the current settings are kept.  The level-change callback
only observes the result and is omitted. -/
def updateDistance (s : DifficultySettings) (distance : ℕ) : DifficultySettings :=
  match DIFFICULTY_THRESHOLDS.reverse.find? (fun th => decide (th.distance ≤ distance)) with
  | some th =>
      { hskLevel := th.hskLevel, speedMultiplier := th.speed,
        decisionTime := th.decisionTime }
  | none => s

/-- CORRECT_ANSWERS_PER_LEVEL of the count-gated variant (src/unnamed/part_004). -/
def CORRECT_ANSWERS_PER_LEVEL : ℕ := 50

/-- LEVEL_SETTINGS table of the count-gated variant (src/unnamed/part_004
lines 763-770). -/
def LEVEL_SETTINGS : List DifficultySettings :=
  [ { hskLevel := 1, speedMultiplier := 1, decisionTime := 3000 },
    { hskLevel := 2, speedMultiplier := 105/100, decisionTime := 2800 },
    { hskLevel := 3, speedMultiplier := 11/10, decisionTime := 2600 },
    { hskLevel := 4, speedMultiplier := 115/100, decisionTime := 2400 },
    { hskLevel := 5, speedMultiplier := 12/10, decisionTime := 2200 },
    { hskLevel := 6, speedMultiplier := 125/100, decisionTime := 2000 } ]

/-- DifficultySystem.update of the count-gated variant (src/unnamed/part_004
lines 788-808): level = min(6, floor(correctAnswers / 50) + 1), looked up in
LEVEL_SETTINGS.  The out-of-range branch is unreachable because the computed
index is always below 6. -/
def updateCount (s : DifficultySettings) (correctAnswers : ℕ) : DifficultySettings :=
  let newLevel := min 6 (correctAnswers / CORRECT_ANSWERS_PER_LEVEL + 1)
  let levelIndex := newLevel - 1
  match LEVEL_SETTINGS[levelIndex]? with
  | some st => st
  | none => s

/-! ## Gate progress, collision and retirement -/

/-- GATE_TRAVEL_TIME of the Phaser GameScene variant,
src/src/scenes/GameScene.ts line 18. -/
def GATE_TRAVEL_TIME_2D : ℚ := 6000

/-- GATE_TRAVEL_TIME of the Game3D variant, src/unnamed/part_001 line 68. -/
def GATE_TRAVEL_TIME_3D : ℚ := 4000

/-- Gate progress as computed by GameScene.update,
src/src/scenes/GameScene.ts line 493:
progress = Math.min(1, elapsed / (GATE_TRAVEL_TIME / gameSpeed)). -/
def gameSceneGateProgress (time spawnTime gameSpeed : ℚ) : ℚ :=
  min 1 ((time - spawnTime) / (GATE_TRAVEL_TIME_2D / gameSpeed))

/-- Gate progress as computed by Game3D.animate, src/unnamed/part_001 line 963
and src/unnamed/part_002 line 769: progress = elapsed / (GATE_TRAVEL_TIME /
gameSpeed), not clamped.  The elapsed time is wall-clock time since spawn
(performance.now() - gate.spawnTime); no pause adjustment is applied to it. -/
def game3dGateProgress (now spawnTime gameSpeed : ℚ) : ℚ :=
  (now - spawnTime) / (GATE_TRAVEL_TIME_3D / gameSpeed)

/-- Mutable per-gate fields used by the collision/retirement logic of
Game3D.animate (src/unnamed/part_001 lines 960-1001). -/
structure Gate3D where
  spawnTime : ℚ
  progress : ℚ
  processed : Bool
deriving DecidableEq, Repr

/-- One animate tick applied to one gate (src/unnamed/part_001 lines 960-994):
recompute progress from wall-clock time, run collision resolution when
progress ≥ 0.98 and the gate is not yet processed (marking it processed), and
retire the gate when progress ≥ 1.15.  Returns the updated gate, whether
collision resolution (processGateCollision) fired on this tick, and whether
the gate was retired (spliced out of the active list). -/
def animateGateStep (g : Gate3D) (now gameSpeed : ℚ) : Gate3D × Bool × Bool :=
  let progress := game3dGateProgress now g.spawnTime gameSpeed
  let fires := decide ((98 : ℚ)/100 ≤ progress) && !g.processed
  let g2 : Gate3D := { g with progress := progress, processed := g.processed || fires }
  (g2, fires, decide ((115 : ℚ)/100 ≤ progress))

/-- Runs a gate through a sequence of ticks, each tick given by the wall-clock
time and the current speed multiplier, and counts how many ticks fired
collision resolution.  Processing stops once the gate is retired. -/
def animateGateRun (g : Gate3D) : List (ℚ × ℚ) → ℕ
  | [] => 0
  | (now, sp) :: rest =>
    let step := animateGateStep g now sp
    (if step.2.1 then 1 else 0) +
      (if step.2.2 then 0 else animateGateRun step.1 rest)

/-! ## WordManager (src/src/systems/WordManager.ts) -/

/-- Option slot of a question.  JavaScript may place undefined in the word
field (options.push with distractors[distractorIndex] out of range), which is
modelled by none. -/
structure QOption where
  lane : Lane
  word : Option Word
deriving DecidableEq, Repr

/-- WordQuestion record, src/src/systems/WordManager.ts lines 4-9. -/
structure WordQuestion where
  correctWord : Word
  options : List QOption
  correctLane : Lane
  mode : QuestionMode
deriving DecidableEq, Repr

/-- Private fields of WordManager that generateQuestion reads or writes. -/
structure WordManagerState where
  recentWords : List String
  customWords : Option (List Word)
deriving DecidableEq, Repr

/-- WordManager.maxRecentWords (line 13). -/
def maxRecentWords : ℕ := 20

/-- Lane list used by generateQuestion (line 49). -/
def lanesList : List Lane := [Lane.left, Lane.center, Lane.right]

/-- Swap of two positions of a list, the body of the Fisher-Yates loop of
WordManager.shuffle (line 110). -/
def swapAt (l : List Word) (i j : ℕ) : List Word :=
  match l[i]?, l[j]? with
  | some a, some b => (l.set i b).set j a
  | _, _ => l

/-- Descending loop of WordManager.shuffle (lines 108-111): at index i ≥ 1
swap position i with position (tape i) % (i+1) and continue with i-1.  The
tape models the successive Math.random draws; reducing modulo i+1 reproduces
Math.floor(Math.random() * (i + 1)). -/
def shuffleAux (tape : ℕ → ℕ) : List Word → ℕ → List Word
  | l, 0 => l
  | l, i + 1 => shuffleAux tape (swapAt l (i + 1) (tape (i + 1) % (i + 2))) i

/-- WordManager.shuffle (lines 106-113). -/
def shuffle (l : List Word) (tape : ℕ → ℕ) : List Word :=
  shuffleAux tape l (l.length - 1)

/-- Accumulating loop shared by both distractor passes of
WordManager.getDistractors (lines 88-101): walk the shuffled list, stop at 2
distractors, and push a word unless a distractor with the same target text is
already present. -/
def distractorFill : List Word → List Word → List Word
  | acc, [] => acc
  | acc, w :: ws =>
    if 2 ≤ acc.length then acc
    else if acc.any (fun d => d.target == w.target) then distractorFill acc ws
    else distractorFill (acc ++ [w]) ws

/-- WordManager.getDistractors (lines 77-104), with the two shuffle tapes as
explicit randomness parameters. -/
def getDistractors (correctWord : Word) (_hskLevel : ℕ) (pool : List Word)
    (catTape poolTape : ℕ → ℕ) : List Word :=
  let sameCategoryWords := pool.filter
    (fun w => w.category == correctWord.category && w.target != correctWord.target)
  let shuffledCategory := shuffle sameCategoryWords catTape
  let shuffledPool := shuffle (pool.filter (fun w => w.target != correctWord.target)) poolTape
  distractorFill (distractorFill [] shuffledCategory) shuffledPool

/-- Random draws consumed by one generateQuestion call. -/
structure QRand where
  availablePick : ℕ
  fallbackPick : ℕ
  catTape : ℕ → ℕ
  poolTape : ℕ → ℕ
  lanePick : ℕ
  modeHalf : Bool

/-- WordManager.getAvailableWords (lines 70-75), parameterized by the
vocabulary provider getWordsForLevel (src/src/data). -/
def getAvailableWords (gw : ℕ → List Word) (hskLevel : ℕ) : List Word :=
  gw hskLevel ++ (if 1 < hskLevel then gw (hskLevel - 1) else [])

/-- Correct-word pick of generateQuestion (lines 35-37):
availableWords[Math.floor(Math.random()*len)] || words[Math.floor(...)].
An out-of-range index (empty filtered list) yields undefined and falls back
to the unfiltered pool; none is returned only when the pool itself is empty
(where the source would throw reading correctWord.target). -/
def pickCorrectWord (words availableWords : List Word)
    (availablePick fallbackPick : ℕ) : Option Word :=
  match availableWords[availablePick % availableWords.length]? with
  | some w => some w
  | none => words[fallbackPick % words.length]?

/-- Option-assembly loop of generateQuestion (lines 53-62): for i in 0..2,
the slot at the correct lane index receives the correct word and the other
slots receive distractors[distractorIndex++] (undefined, i.e. none, when the
distractor list is exhausted).  The last argument is the remaining iteration
count (3 - i). -/
def optionsLoop (correctLaneIndex : ℕ) (correctWord : Word)
    (distractors : List Word) : ℕ → ℕ → ℕ → List QOption
  | _, _, 0 => []
  | i, dIdx, fuel + 1 =>
    if i = correctLaneIndex then
      { lane := lanesList.getD i Lane.left, word := some correctWord } ::
        optionsLoop correctLaneIndex correctWord distractors (i + 1) dIdx fuel
    else
      { lane := lanesList.getD i Lane.left, word := distractors[dIdx]? } ::
        optionsLoop correctLaneIndex correctWord distractors (i + 1) (dIdx + 1) fuel

/-- Recent-word tracking of generateQuestion (lines 40-43): push the chosen
target and evict the oldest entry once the buffer exceeds maxRecentWords. -/
def pushRecent (recent : List String) (t : String) : List String :=
  let recent1 := recent ++ [t]
  if maxRecentWords < recent1.length then recent1.tail else recent1

/-- WordManager.generateQuestion (lines 29-68), parameterized by the
vocabulary provider and the random draws.  Returns the question together with
the updated manager state, or none when the resolved word pool is empty (the
source would throw in that case). -/
def generateQuestion (gw : ℕ → List Word) (s : WordManagerState) (hskLevel : ℕ)
    (r : QRand) : Option (WordQuestion × WordManagerState) :=
  let words :=
    match s.customWords with
    | some cw => if 0 < cw.length then cw else getAvailableWords gw hskLevel
    | none => getAvailableWords gw hskLevel
  let availableWords := words.filter (fun w => !(s.recentWords.contains w.target))
  match pickCorrectWord words availableWords r.availablePick r.fallbackPick with
  | none => none
  | some correctWord =>
    let recent2 := pushRecent s.recentWords correctWord.target
    let distractors := getDistractors correctWord hskLevel words r.catTape r.poolTape
    let correctLaneIndex := r.lanePick % 3
    let correctLane := lanesList.getD correctLaneIndex Lane.left
    let options := optionsLoop correctLaneIndex correctWord distractors 0 0 3
    let mode := if r.modeHalf then QuestionMode.englishToTarget
      else QuestionMode.targetToEnglish
    some ({ correctWord := correctWord, options := options,
            correctLane := correctLane, mode := mode },
          { recentWords := recent2, customWords := s.customWords })

/-- Iterated generateQuestion: returns the sequence of chosen correct words
together with the final manager state.  The run stops early only in the
empty-pool case, which never arises in the claims below. -/
def generateRun (gw : ℕ → List Word) (hskLevel : ℕ) :
    WordManagerState → List QRand → List Word × WordManagerState
  | s, [] => ([], s)
  | s, r :: rs =>
    match generateQuestion gw s hskLevel r with
    | none => ([], s)
    | some (q, s2) =>
      let rest := generateRun gw hskLevel s2 rs
      (q.correctWord :: rest.1, rest.2)

/-- Finset of distinct target texts of a word list. -/
def targetSet (l : List Word) : Finset String :=
  (l.map Word.target).toFinset

/-! ## Helper lemmas for the ScoreSystem -/

/-- Explicit form of a correct-answer calculateScore call. -/
lemma calculateScore_true_eq (s : ScoreState) (t : ℚ) (h : ℕ) :
    calculateScore s true t h =
      ({ score := s.score +
           (Int.floor (((100 + (if t < 1000 then (50 : ℤ) else 0) : ℤ) : ℚ) *
               (1 + ((h : ℚ) - 1) * (2 / 10))) +
             (if s.streak + 1 = 5 then (200 : ℤ)
              else if s.streak + 1 = 10 then 500
              else if 10 < s.streak + 1 ∧ (s.streak + 1) % 5 = 0 then 300
              else 0)),
         streak := s.streak + 1,
         maxStreak := max s.maxStreak (s.streak + 1),
         correctAnswers := s.correctAnswers + 1,
         totalAnswers := s.totalAnswers + 1 },
       { basePoints := 100,
         speedBonus := if t < 1000 then 50 else 0,
         streakBonus :=
           if s.streak + 1 = 5 then (200 : ℤ)
           else if s.streak + 1 = 10 then 500
           else if 10 < s.streak + 1 ∧ (s.streak + 1) % 5 = 0 then 300
           else 0,
         multiplier := 1 + ((h : ℚ) - 1) * (2 / 10),
         totalPoints :=
           Int.floor (((100 + (if t < 1000 then (50 : ℤ) else 0) : ℤ) : ℚ) *
               (1 + ((h : ℚ) - 1) * (2 / 10))) +
             (if s.streak + 1 = 5 then (200 : ℤ)
              else if s.streak + 1 = 10 then 500
              else if 10 < s.streak + 1 ∧ (s.streak + 1) % 5 = 0 then 300
              else 0) }) := rfl

/-- The total points of any calculateScore call are non-negative. -/
lemma calculateScore_totalPoints_nonneg (s : ScoreState) (c : Bool) (t : ℚ)
    (h : ℕ) : 0 ≤ (calculateScore s c t h).2.totalPoints := by
  cases c with
  | false => simp [calculateScore]
  | true =>
    rw [calculateScore_true_eq]
    dsimp only
    have hm : (0 : ℚ) ≤ 1 + ((h : ℚ) - 1) * (2 / 10) := by
      have h0 : (0 : ℚ) ≤ (h : ℚ) := Nat.cast_nonneg h
      nlinarith
    have hbs : (0 : ℚ) ≤ ((100 + (if t < 1000 then (50 : ℤ) else 0) : ℤ) : ℚ) := by
      split <;> norm_num
    have hfl : 0 ≤ Int.floor (((100 + (if t < 1000 then (50 : ℤ) else 0) : ℤ) : ℚ) *
        (1 + ((h : ℚ) - 1) * (2 / 10))) :=
      Int.floor_nonneg.2 (mul_nonneg hbs hm)
    split_ifs at hfl ⊢ <;> omega

/-- Each calculateScore call preserves the structural invariant. -/
lemma calculateScore_preserves_inv (s : ScoreState) (c : Bool) (t : ℚ) (h : ℕ)
    (hs : ScoreInv s) : ScoreInv (calculateScore s c t h).1 := by
  have hp := calculateScore_totalPoints_nonneg s c t h
  obtain ⟨h1, h2, h3⟩ := hs
  cases c with
  | false =>
    simp_all [calculateScore, ScoreInv]
    omega
  | true =>
    simp_all only [calculateScore, Bool.not_true, Bool.false_eq_true, if_false,
      ScoreInv]
    refine ⟨by omega, by omega, by omega⟩

/-- Each calculateScore call leaves score, maxStreak, correctAnswers and
totalAnswers non-decreasing. -/
lemma calculateScore_monotone (s : ScoreState) (c : Bool) (t : ℚ) (h : ℕ) :
    s.score ≤ (calculateScore s c t h).1.score ∧
    s.maxStreak ≤ (calculateScore s c t h).1.maxStreak ∧
    s.correctAnswers ≤ (calculateScore s c t h).1.correctAnswers ∧
    s.totalAnswers ≤ (calculateScore s c t h).1.totalAnswers := by
  have hp := calculateScore_totalPoints_nonneg s c t h
  cases c with
  | false => simp [calculateScore]
  | true =>
    simp_all only [calculateScore, Bool.not_true, Bool.false_eq_true, if_false]
    refine ⟨by omega, by omega, by omega, by omega⟩

/-! ## Claim theorems for the ScoreSystem -/

/-- C3: a correct answer awards basePoints 100, speedBonus 50 exactly when the
decision took under 1000 ms, multiplier 1 + (level-1)*0.2, the streak bonus
determined by the updated streak (200 exactly at streak 5, 500 exactly at
streak 10, 300 at later multiples of 5), and
totalPoints = floor((basePoints+speedBonus)*multiplier) + streakBonus added to
the accumulated score. -/
theorem calculateScore_correct_formula (s : ScoreState) (t : ℚ) (h : ℕ)
    (hle : 1 ≤ h) (hge : h ≤ 6) :
    (calculateScore s true t h).2.basePoints = 100 ∧
    (calculateScore s true t h).2.speedBonus = (if t < 1000 then 50 else 0) ∧
    (calculateScore s true t h).2.multiplier = 1 + ((h : ℚ) - 1) * (1 / 5) ∧
    (calculateScore s true t h).1.streak = s.streak + 1 ∧
    ((calculateScore s true t h).2.streakBonus =
      if s.streak + 1 = 5 then 200
      else if s.streak + 1 = 10 then 500
      else if 10 < s.streak + 1 ∧ (s.streak + 1) % 5 = 0 then 300
      else 0) ∧
    ((calculateScore s true t h).2.streakBonus = 200 ↔ s.streak + 1 = 5) ∧
    ((calculateScore s true t h).2.streakBonus = 500 ↔ s.streak + 1 = 10) ∧
    (calculateScore s true t h).2.totalPoints =
      Int.floor (((100 + (calculateScore s true t h).2.speedBonus : ℤ) : ℚ) *
        (calculateScore s true t h).2.multiplier) +
        (calculateScore s true t h).2.streakBonus ∧
    (calculateScore s true t h).1.score =
      s.score + (calculateScore s true t h).2.totalPoints := by
  rw [calculateScore_true_eq]
  refine ⟨rfl, rfl, by norm_num, rfl, rfl, ?_, ?_, rfl, rfl⟩ <;>
    dsimp only <;> split_ifs <;> omega

/-- C3 witness: level 3, fast answer, streak reaching 1. -/
theorem calculateScore_correct_formula_witness :
    (calculateScore initialScoreState true 500 3).2.basePoints = 100 ∧
    (calculateScore initialScoreState true 500 3).2.speedBonus = 50 ∧
    (calculateScore initialScoreState true 500 3).2.multiplier = 7 / 5 ∧
    (calculateScore initialScoreState true 500 3).1.score =
      initialScoreState.score +
        (calculateScore initialScoreState true 500 3).2.totalPoints := by
  obtain ⟨h1, h2, h3, _, _, _, _, _, h9⟩ :=
    calculateScore_correct_formula initialScoreState 500 3 (by norm_num) (by norm_num)
  refine ⟨h1, ?_, ?_, h9⟩
  · rw [h2]; norm_num
  · rw [h3]; norm_num

/-- C5 counterexample: the result of an incorrect answer is not all-zero: its
multiplier field is 1, not 0. -/
theorem calculateScore_incorrect_not_all_zero :
    ¬ ((calculateScore initialScoreState false 500 3).2.basePoints = 0 ∧
       (calculateScore initialScoreState false 500 3).2.speedBonus = 0 ∧
       (calculateScore initialScoreState false 500 3).2.streakBonus = 0 ∧
       (calculateScore initialScoreState false 500 3).2.multiplier = 0 ∧
       (calculateScore initialScoreState false 500 3).2.totalPoints = 0) := by
  simp [calculateScore, initialScoreState]

/-- C5 amended: an incorrect answer increments only the total-answer count,
resets the streak to 0, leaves score, correct count and maxStreak unchanged,
and returns zero basePoints, speedBonus, streakBonus and totalPoints with
multiplier 1 (not 0). -/
theorem calculateScore_incorrect_spec (s : ScoreState) (t : ℚ) (h : ℕ) :
    (calculateScore s false t h).1.totalAnswers = s.totalAnswers + 1 ∧
    (calculateScore s false t h).1.streak = 0 ∧
    (calculateScore s false t h).1.score = s.score ∧
    (calculateScore s false t h).1.correctAnswers = s.correctAnswers ∧
    (calculateScore s false t h).1.maxStreak = s.maxStreak ∧
    (calculateScore s false t h).2 =
      { basePoints := 0, speedBonus := 0, streakBonus := 0, multiplier := 1,
        totalPoints := 0 } := by
  simp [calculateScore]

/-- C10: every state reachable from the initial ScoreSystem state through
calculateScore and reset calls satisfies streak ≤ maxStreak,
correctAnswers ≤ totalAnswers and 0 ≤ score (streak and the counters are
naturals, hence non-negative), and a single calculateScore call never
decreases score, maxStreak, correctAnswers or totalAnswers. -/
theorem scoreState_invariant_and_monotone :
    (∀ ops : List ScoreOp, ScoreInv (applyScoreOps initialScoreState ops)) ∧
    (∀ (s : ScoreState) (c : Bool) (t : ℚ) (h : ℕ),
      s.score ≤ (calculateScore s c t h).1.score ∧
      s.maxStreak ≤ (calculateScore s c t h).1.maxStreak ∧
      s.correctAnswers ≤ (calculateScore s c t h).1.correctAnswers ∧
      s.totalAnswers ≤ (calculateScore s c t h).1.totalAnswers) := by
  constructor
  · have key : ∀ (ops : List ScoreOp) (s : ScoreState), ScoreInv s →
        ScoreInv (applyScoreOps s ops) := by
      intro ops
      induction ops with
      | nil => intro s hs; exact hs
      | cons op rest ih =>
        intro s hs
        apply ih
        cases op with
        | calcScore c t h => exact calculateScore_preserves_inv s c t h hs
        | reset => exact ⟨le_refl 0, le_refl 0, le_refl 0⟩
    exact fun ops => key ops initialScoreState ⟨le_refl 0, le_refl 0, le_refl 0⟩
  · exact fun s c t h => calculateScore_monotone s c t h

/-! ## Helper lemmas for the DifficultySystem -/

/-- Closed form of the level resolved by the distance-gated update. -/
lemma updateDistance_level (s : DifficultySettings) (d : ℕ) :
    (updateDistance s d).hskLevel =
      if 8000 ≤ d then 6 else if 5000 ≤ d then 5 else if 3000 ≤ d then 4
      else if 1500 ≤ d then 3 else if 500 ≤ d then 2 else 1 := by
  simp only [updateDistance, DIFFICULTY_THRESHOLDS, List.reverse_cons,
    List.reverse_nil, List.nil_append, List.cons_append, List.singleton_append,
    List.find?]
  by_cases h8 : 8000 ≤ d
  · simp [h8]
  by_cases h5 : 5000 ≤ d
  · simp [h8, h5]
  by_cases h3 : 3000 ≤ d
  · simp [h8, h5, h3]
  by_cases h15 : 1500 ≤ d
  · simp [h8, h5, h3, h15]
  by_cases h05 : 500 ≤ d
  · simp [h8, h5, h3, h15, h05]
  simp [h8, h5, h3, h15, h05]

/-- Closed form of the level resolved by the count-gated update. -/
lemma updateCount_level (s : DifficultySettings) (c : ℕ) :
    (updateCount s c).hskLevel = min 6 (c / 50 + 1) := by
  unfold updateCount CORRECT_ANSWERS_PER_LEVEL
  rcases Nat.lt_or_ge (c / 50) 5 with h | h
  · interval_cases h2 : c / 50 <;> simp [LEVEL_SETTINGS]
  · have h6 : min 6 (c / 50 + 1) = 6 := Nat.min_eq_left (by omega)
    rw [h6]
    simp [LEVEL_SETTINGS]

/-! ## Claim theorem for the DifficultySystem -/

/-- C7: in both difficulty variants the resolved level is a non-decreasing
function of the progress signal and never exceeds the maximum of 6, from any
controller state. -/
theorem difficulty_level_monotone_saturating :
    (∀ (s : DifficultySettings) (d1 d2 : ℕ), d1 ≤ d2 →
      (updateDistance s d1).hskLevel ≤ (updateDistance s d2).hskLevel) ∧
    (∀ (s : DifficultySettings) (c1 c2 : ℕ), c1 ≤ c2 →
      (updateCount s c1).hskLevel ≤ (updateCount s c2).hskLevel) ∧
    (∀ (s : DifficultySettings) (d : ℕ), (updateDistance s d).hskLevel ≤ 6) ∧
    (∀ (s : DifficultySettings) (c : ℕ), (updateCount s c).hskLevel ≤ 6) := by
  refine ⟨?_, ?_, ?_, ?_⟩
  · intro s d1 d2 hd
    rw [updateDistance_level, updateDistance_level]
    split_ifs <;> omega
  · intro s c1 c2 hc
    rw [updateCount_level, updateCount_level]
    have : c1 / 50 ≤ c2 / 50 := Nat.div_le_div_right hc
    omega
  · intro s d
    rw [updateDistance_level]
    split_ifs <;> omega
  · intro s c
    rw [updateCount_level]
    omega

/-- C7 witness: concrete monotone instances of both variants. -/
theorem difficulty_level_monotone_saturating_witness :
    (updateDistance initialDifficultySettings 400).hskLevel ≤
      (updateDistance initialDifficultySettings 600).hskLevel ∧
    (updateCount initialDifficultySettings 49).hskLevel ≤
      (updateCount initialDifficultySettings 300).hskLevel :=
  ⟨difficulty_level_monotone_saturating.1 initialDifficultySettings 400 600
      (by norm_num),
   difficulty_level_monotone_saturating.2.1 initialDifficultySettings 49 300
      (by norm_num)⟩

/-! ## Claim theorems for gate progress -/

/-- C2: the GameScene variant clamps gate progress to 1
(Math.min at src/src/scenes/GameScene.ts line 493), so its retirement
condition progress ≥ 1.1 (line 504) never holds and gates are never removed;
the Game3D variant computes unclamped progress that does reach the 1.15
retirement threshold (shown at elapsed 4600 ms with speed 1). -/
theorem gameScene_gate_progress_clamped :
    (∀ time spawnTime gameSpeed : ℚ,
      gameSceneGateProgress time spawnTime gameSpeed ≤ 1) ∧
    gameSceneGateProgress 6600 0 1 = 1 ∧
    ¬ ((11 : ℚ)/10 ≤ gameSceneGateProgress 6600 0 1) ∧
    game3dGateProgress 4600 0 1 = 23/20 ∧
    (115 : ℚ)/100 ≤ game3dGateProgress 4600 0 1 := by
  refine ⟨fun t s sp => min_le_left _ _, ?_, ?_, ?_, ?_⟩ <;>
    norm_num [gameSceneGateProgress, game3dGateProgress, GATE_TRAVEL_TIME_2D,
      GATE_TRAVEL_TIME_3D]

/-- Once a gate is processed, no later tick fires collision resolution. -/
lemma animateGateRun_processed (ticks : List (ℚ × ℚ)) :
    ∀ g : Gate3D, g.processed = true → animateGateRun g ticks = 0 := by
  induction ticks with
  | nil => intro g _; rfl
  | cons t rest ih =>
    intro g hg
    obtain ⟨now, sp⟩ := t
    simp only [animateGateRun, animateGateStep, hg, Bool.not_true,
      Bool.and_false, Bool.or_false, Bool.false_eq_true, if_false, Nat.zero_add]
    split
    · rfl
    · exact ih _ rfl

/-- Collision resolution fires at most once over any tick sequence. -/
lemma animateGateRun_le_one : ∀ (ticks : List (ℚ × ℚ)) (g : Gate3D),
    animateGateRun g ticks ≤ 1 := by
  intro ticks
  induction ticks with
  | nil => intro g; simp [animateGateRun]
  | cons t rest ih =>
    intro g
    obtain ⟨now, sp⟩ := t
    by_cases hg : g.processed = true
    · rw [animateGateRun_processed _ _ hg]
      omega
    · replace hg : g.processed = false := by
        cases hgp : g.processed
        · rfl
        · exact absurd hgp hg
      by_cases hc : (98 : ℚ)/100 ≤ game3dGateProgress now g.spawnTime sp
      · have h0 := animateGateRun_processed rest
          ({ g with
              progress := game3dGateProgress now g.spawnTime sp,
              processed := true } : Gate3D) rfl
        simp only [animateGateRun, animateGateStep, hg, hc, decide_True,
          Bool.not_false, Bool.and_true, Bool.or_true, Bool.true_or, if_true, h0]
        split <;> omega
      · simp only [animateGateRun, animateGateStep, hg, hc, decide_False,
          Bool.false_and, Bool.and_false, Bool.or_false, Bool.false_eq_true,
          if_false, Nat.zero_add]
        split
        · omega
        · exact ih _

/-! ## Claim theorem for collision idempotence -/

/-- C4: over any tick sequence a gate fires collision resolution at most
once; a gate already marked processed never re-fires; and an unprocessed gate
whose first tick reaches the collision threshold fires exactly once over the
whole sequence. -/
theorem gate_collision_resolved_once (g : Gate3D) (ticks : List (ℚ × ℚ)) :
    animateGateRun g ticks ≤ 1 ∧
    (g.processed = true → animateGateRun g ticks = 0) ∧
    (∀ now sp rest, ticks = (now, sp) :: rest → g.processed = false →
      (98 : ℚ)/100 ≤ game3dGateProgress now g.spawnTime sp →
      animateGateRun g ticks = 1) := by
  refine ⟨animateGateRun_le_one ticks g, animateGateRun_processed ticks g, ?_⟩
  intro now sp rest hticks hproc hthr
  subst hticks
  have h0 := animateGateRun_processed rest
    ({ g with
        progress := game3dGateProgress now g.spawnTime sp,
        processed := true } : Gate3D) rfl
  simp only [animateGateRun, animateGateStep, hproc, hthr, decide_True,
    Bool.not_false, Bool.and_true, Bool.or_true, Bool.true_or, if_true, h0]
  split <;> omega

/-- C4 witness: a gate crossing the threshold at 3950 ms and ticked twice more
past the threshold resolves exactly once. -/
theorem gate_collision_resolved_once_witness :
    animateGateRun { spawnTime := 0, progress := 0, processed := false }
      [(3950, 1), (4100, 1), (4200, 1)] = 1 :=
  (gate_collision_resolved_once _ _).2.2 3950 1 _ rfl rfl
    (by norm_num [game3dGateProgress, GATE_TRAVEL_TIME_3D])

/-! ## Permutation facts for the Fisher-Yates shuffle -/

/-- Replacing the element at position k and moving the old element to the
front is a permutation of putting the new element at the front. -/
lemma cons_set_perm : ∀ (xs : List Word) (k : ℕ) (x b : Word),
    xs[k]? = some b → (b :: xs.set k x).Perm (x :: xs) := by
  intro xs
  induction xs with
  | nil => intro k x b h; simp at h
  | cons y t ih =>
    intro k x b h
    cases k with
    | zero =>
      simp only [List.getElem?_cons_zero, Option.some.injEq] at h
      subst h
      exact List.Perm.swap x y t
    | succ k =>
      simp only [List.getElem?_cons_succ] at h
      have step1 : (b :: y :: t.set k x).Perm (y :: b :: t.set k x) :=
        List.Perm.swap y b (t.set k x)
      have step2 : (y :: b :: t.set k x).Perm (y :: x :: t) :=
        (ih k x b h).cons y
      have step3 : (y :: x :: t).Perm (x :: y :: t) := List.Perm.swap x y t
      exact (step1.trans step2).trans step3

/-- A swap of two positions permutes the list. -/
lemma swapAt_perm (l : List Word) (i j : ℕ) : (swapAt l i j).Perm l := by
  unfold swapAt
  cases hi : l[i]? with
  | none => exact List.Perm.refl l
  | some a =>
    cases hj : l[j]? with
    | none => exact List.Perm.refl l
    | some b =>
      have hb2 : (l.set i b)[j]? = some b := by
        by_cases hij : i = j
        · subst hij
          exact List.getElem?_set_self (List.getElem?_eq_some_iff.mp hi).1
        · rw [List.getElem?_set_ne hij]
          exact hj
      have p1 := cons_set_perm (l.set i b) j a b hb2
      have p2 := cons_set_perm l i b a hi
      exact (p1.trans p2).cons_inv

/-- The shuffle loop permutes the list. -/
lemma shuffleAux_perm (tape : ℕ → ℕ) :
    ∀ (n : ℕ) (l : List Word), (shuffleAux tape l n).Perm l := by
  intro n
  induction n with
  | zero => intro l; exact List.Perm.refl l
  | succ n ih =>
    intro l
    exact (ih _).trans (swapAt_perm l (n + 1) (tape (n + 1) % (n + 2)))

/-- WordManager.shuffle returns a permutation of its input for every tape. -/
lemma shuffle_perm (l : List Word) (tape : ℕ → ℕ) : (shuffle l tape).Perm l :=
  shuffleAux_perm tape (l.length - 1) l

/-- Permuted lists have the same Finset of distinct target texts. -/
lemma perm_targetSet {l1 l2 : List Word} (hp : l1.Perm l2) :
    targetSet l1 = targetSet l2 :=
  Finset.ext fun x => by
    simp only [targetSet, List.mem_toFinset, List.mem_map]
    exact ⟨fun ⟨w, hw, he⟩ => ⟨w, hp.mem_iff.mp hw, he⟩,
           fun ⟨w, hw, he⟩ => ⟨w, hp.mem_iff.mpr hw, he⟩⟩

/-! ## Facts about the distractor accumulation loop -/

/-- The accumulator never exceeds 2 distractors. -/
lemma distractorFill_length_le : ∀ (l acc : List Word), acc.length ≤ 2 →
    (distractorFill acc l).length ≤ 2 := by
  intro l
  induction l with
  | nil => intro acc h; exact h
  | cons w ws ih =>
    intro acc h
    unfold distractorFill
    split
    · exact h
    · split
      · exact ih acc h
      · rename_i h2 _
        have : acc.length + 1 ≤ 2 := by omega
        simpa using ih (acc ++ [w]) (by simpa using this)

/-- Every distractor comes from the accumulator or from the walked list. -/
lemma distractorFill_mem : ∀ (l acc : List Word) (w : Word),
    w ∈ distractorFill acc l → w ∈ acc ∨ w ∈ l := by
  intro l
  induction l with
  | nil => intro acc w h; exact Or.inl h
  | cons y ws ih =>
    intro acc w h
    unfold distractorFill at h
    split at h
    · exact Or.inl h
    · split at h
      · rcases ih acc w h with hl | hr
        · exact Or.inl hl
        · exact Or.inr (List.mem_cons_of_mem y hr)
      · rcases ih (acc ++ [y]) w h with hl | hr
        · rcases List.mem_append.mp hl with h1 | h1
          · exact Or.inl h1
          · rw [List.mem_singleton] at h1
            subst h1
            exact Or.inr (List.mem_cons_self w ws)
        · exact Or.inr (List.mem_cons_of_mem y hr)

/-- The loop preserves pairwise distinctness of target texts. -/
lemma distractorFill_pairwise : ∀ (l acc : List Word),
    acc.Pairwise (fun a b => a.target ≠ b.target) →
    (distractorFill acc l).Pairwise (fun a b => a.target ≠ b.target) := by
  intro l
  induction l with
  | nil => intro acc h; exact h
  | cons w ws ih =>
    intro acc h
    unfold distractorFill
    split
    · exact h
    · split
      · exact ih acc h
      · rename_i hdup
        refine ih (acc ++ [w]) ?_
        rw [List.pairwise_append]
        refine ⟨h, List.pairwise_singleton _ _, ?_⟩
        intro a ha b hb
        rw [List.mem_singleton] at hb
        subst hb
        intro he
        refine hdup (List.any_eq_true.mpr ⟨a, ha, ?_⟩)
        simp [he]

/-- The loop collects at least min 2 (number of distinct available targets)
distractors. -/
lemma distractorFill_length_ge : ∀ (l acc : List Word),
    min 2 (targetSet (acc ++ l)).card ≤ (distractorFill acc l).length := by
  intro l
  induction l with
  | nil =>
    intro acc
    unfold distractorFill
    have h1 : (targetSet (acc ++ [])).card ≤ acc.length := by
      rw [List.append_nil]
      have h2 : (acc.map Word.target).toFinset.card ≤
          (acc.map Word.target).length :=
        List.toFinset_card_le (acc.map Word.target)
      simpa [targetSet] using h2
    omega
  | cons w ws ih =>
    intro acc
    unfold distractorFill
    split
    · rename_i h2
      have := min_le_left 2 (targetSet (acc ++ w :: ws)).card
      omega
    · split
      · rename_i h2 hdup
        have hset : targetSet (acc ++ w :: ws) = targetSet (acc ++ ws) := by
          have hw : w.target ∈ targetSet acc := by
            rcases List.any_eq_true.mp hdup with ⟨d, hd, he⟩
            simp only [beq_iff_eq] at he
            exact List.mem_toFinset.mpr (List.mem_map.mpr ⟨d, hd, he⟩)
          apply Finset.ext
          intro x
          simp only [targetSet, List.map_append, List.toFinset_append,
            List.map_cons, List.toFinset_cons, Finset.mem_union,
            Finset.mem_insert]
          constructor
          · rintro (h | h | h)
            · exact Or.inl h
            · subst h
              exact Or.inl (by simpa [targetSet] using hw)
            · exact Or.inr h
          · rintro (h | h)
            · exact Or.inl h
            · exact Or.inr (Or.inr h)
        rw [hset]
        exact ih acc
      · have hre : acc ++ w :: ws = (acc ++ [w]) ++ ws := by
          simp
        rw [hre]
        exact ih (acc ++ [w])

/-! ## Facts about getDistractors -/

/-- Every generated distractor lies in the pool and differs from the correct
word by target text, and the generated distractors have pairwise distinct
target texts and number at most 2.  These hold for every pool. -/
lemma getDistractors_basic (c : Word) (hsk : ℕ) (pool : List Word)
    (catTape poolTape : ℕ → ℕ) :
    (∀ w ∈ getDistractors c hsk pool catTape poolTape,
        w ∈ pool ∧ w.target ≠ c.target) ∧
    (getDistractors c hsk pool catTape poolTape).Pairwise
      (fun a b => a.target ≠ b.target) ∧
    (getDistractors c hsk pool catTape poolTape).length ≤ 2 := by
  unfold getDistractors
  refine ⟨?_, ?_, ?_⟩
  · intro w hw
    rcases distractorFill_mem _ _ w hw with h1 | h1
    · rcases distractorFill_mem _ _ w h1 with h2 | h2
      · simp at h2
      · have h3 := (shuffle_perm _ _).mem_iff.mp h2
        rw [List.mem_filter] at h3
        refine ⟨h3.1, ?_⟩
        have := h3.2
        simp only [Bool.and_eq_true, bne_iff_ne, ne_eq] at this
        exact this.2
    · have h3 := (shuffle_perm _ _).mem_iff.mp h1
      rw [List.mem_filter] at h3
      refine ⟨h3.1, ?_⟩
      have := h3.2
      simpa using this
  · exact distractorFill_pairwise _ _
      (distractorFill_pairwise _ _ (List.Pairwise.nil))
  · exact distractorFill_length_le _ _
      (distractorFill_length_le _ _ (by simp))

/-- When the pool offers at least two distinct non-correct target texts, the
generated distractor list has length exactly 2. -/
lemma getDistractors_length_eq_two (c : Word) (hsk : ℕ) (pool : List Word)
    (catTape poolTape : ℕ → ℕ)
    (h2 : 2 ≤ (targetSet (pool.filter
      (fun w => w.target != c.target))).card) :
    (getDistractors c hsk pool catTape poolTape).length = 2 := by
  have hle := (getDistractors_basic c hsk pool catTape poolTape).2.2
  dsimp only [getDistractors] at hle ⊢
  have hge := distractorFill_length_ge
    (shuffle (pool.filter (fun w => w.target != c.target)) poolTape)
    (distractorFill []
      (shuffle (pool.filter (fun w => w.category == c.category &&
        w.target != c.target)) catTape))
  have hsub : targetSet (shuffle (pool.filter
      (fun w => w.target != c.target)) poolTape) ⊆
      targetSet (distractorFill []
        (shuffle (pool.filter (fun w => w.category == c.category &&
          w.target != c.target)) catTape) ++
        shuffle (pool.filter (fun w => w.target != c.target)) poolTape) := by
    intro x hx
    simp only [targetSet, List.mem_toFinset, List.mem_map] at hx ⊢
    rcases hx with ⟨w, hw, he⟩
    exact ⟨w, List.mem_append.mpr (Or.inr hw), he⟩
  have hcard2 : 2 ≤ (targetSet (shuffle (pool.filter
      (fun w => w.target != c.target)) poolTape)).card := by
    rw [perm_targetSet (shuffle_perm _ _)]
    exact h2
  have := Finset.card_le_card hsub
  omega

/-- The target-text pigeonhole: a pool with at least three distinct target
texts keeps at least two distinct non-correct target texts after filtering
out the correct word. -/
lemma filtered_targetSet_card (c : Word) (pool : List Word)
    (h3 : 3 ≤ (targetSet pool).card) :
    2 ≤ (targetSet (pool.filter (fun w => w.target != c.target))).card := by
  have hsub : targetSet pool \ {c.target} ⊆
      targetSet (pool.filter (fun w => w.target != c.target)) := by
    intro x hx
    rw [Finset.mem_sdiff, Finset.mem_singleton] at hx
    obtain ⟨hx1, hx2⟩ := hx
    simp only [targetSet, List.mem_toFinset, List.mem_map] at hx1 ⊢
    rcases hx1 with ⟨w, hw, he⟩
    refine ⟨w, List.mem_filter.mpr ⟨hw, ?_⟩, he⟩
    simp only [bne_iff_ne, ne_eq]
    rw [he]
    exact hx2
  have hcard := Finset.card_le_card hsub
  have hsd : (targetSet pool).card - 1 ≤ (targetSet pool \ {c.target}).card := by
    have h1 := Finset.le_card_sdiff ({c.target} : Finset String) (targetSet pool)
    simpa using h1
  omega

/-! ## Facts about generateQuestion -/

/-- A non-empty pool always yields a correct word, drawn from the filtered
list whenever that list is non-empty. -/
lemma pickCorrectWord_spec (words availableWords : List Word)
    (a f : ℕ) (hw : words ≠ [])
    (hsub : ∀ x ∈ availableWords, x ∈ words) :
    ∃ c, pickCorrectWord words availableWords a f = some c ∧ c ∈ words ∧
      (availableWords ≠ [] → c ∈ availableWords) := by
  unfold pickCorrectWord
  by_cases hav : availableWords = []
  · have hlen : 0 < words.length := List.length_pos.mpr hw
    have hidx : f % words.length < words.length := Nat.mod_lt f hlen
    subst hav
    refine ⟨words[f % words.length], ?_, List.getElem_mem hidx, by simp⟩
    simp [List.getElem?_eq_getElem hidx]
  · have hlen : 0 < availableWords.length := List.length_pos.mpr hav
    have hidx : a % availableWords.length < availableWords.length :=
      Nat.mod_lt a hlen
    refine ⟨availableWords[a % availableWords.length], ?_,
      hsub _ (List.getElem_mem hidx), fun _ => List.getElem_mem hidx⟩
    simp [List.getElem?_eq_getElem hidx]

/-- Structure of a generateQuestion call when a non-empty custom pool is
active: the call succeeds, and its pieces are the picked correct word, the
option-assembly loop over the generated distractors, the uniformly chosen
correct lane, and the FIFO-updated recency buffer. -/
lemma generateQuestion_custom_eq (gw : ℕ → List Word) (pool : List Word)
    (recent : List String) (hsk : ℕ) (r : QRand) (hne : pool ≠ []) :
    ∃ c, pickCorrectWord pool
        (pool.filter (fun w => !(recent.contains w.target)))
        r.availablePick r.fallbackPick = some c ∧
      c ∈ pool ∧
      (pool.filter (fun w => !(recent.contains w.target)) ≠ [] →
        c ∈ pool.filter (fun w => !(recent.contains w.target))) ∧
      generateQuestion gw { recentWords := recent, customWords := some pool }
          hsk r =
        some ({ correctWord := c,
                options := optionsLoop (r.lanePick % 3) c
                  (getDistractors c hsk pool r.catTape r.poolTape) 0 0 3,
                correctLane := lanesList.getD (r.lanePick % 3) Lane.left,
                mode := if r.modeHalf then QuestionMode.englishToTarget
                  else QuestionMode.targetToEnglish },
              { recentWords := pushRecent recent c.target,
                customWords := some pool }) := by
  obtain ⟨c, hc, hcm, hca⟩ := pickCorrectWord_spec pool
    (pool.filter (fun w => !(recent.contains w.target)))
    r.availablePick r.fallbackPick hne
    (fun x hx => (List.mem_filter.mp hx).1)
  refine ⟨c, hc, hcm, hca, ?_⟩
  have hlen : 0 < pool.length := List.length_pos.mpr hne
  simp only [generateQuestion, hlen, if_true, hc]

/-- The option-assembly loop with correct lane index 0. -/
lemma optionsLoop_zero (c : Word) (ds : List Word) :
    optionsLoop 0 c ds 0 0 3 =
      [{ lane := Lane.left, word := some c },
       { lane := Lane.center, word := ds[0]? },
       { lane := Lane.right, word := ds[1]? }] := rfl

/-- The option-assembly loop with correct lane index 1. -/
lemma optionsLoop_one (c : Word) (ds : List Word) :
    optionsLoop 1 c ds 0 0 3 =
      [{ lane := Lane.left, word := ds[0]? },
       { lane := Lane.center, word := some c },
       { lane := Lane.right, word := ds[1]? }] := rfl

/-- The option-assembly loop with correct lane index 2. -/
lemma optionsLoop_two (c : Word) (ds : List Word) :
    optionsLoop 2 c ds 0 0 3 =
      [{ lane := Lane.left, word := ds[0]? },
       { lane := Lane.center, word := ds[1]? },
       { lane := Lane.right, word := some c }] := rfl

/-! ## Claim theorem for question well-formedness -/

/-- C1: when the candidate pool holds at least 3 pairwise-distinct target
texts, every generated question has exactly 3 options whose lanes are left,
center and right in order, an option holding the correct word sits exactly at
the correct lane, and the three option words are the correct word plus two
distractors that differ from it and from each other by target text. -/
theorem generateQuestion_wellformed (gw : ℕ → List Word) (pool : List Word)
    (recent : List String) (hsk : ℕ) (r : QRand)
    (hcard : 3 ≤ (targetSet pool).card) :
    ∃ q s2,
      generateQuestion gw { recentWords := recent, customWords := some pool }
        hsk r = some (q, s2) ∧
      q.options.map QOption.lane = lanesList ∧
      q.options.length = 3 ∧
      ({ lane := q.correctLane, word := some q.correctWord } : QOption) ∈
        q.options ∧
      (∀ o ∈ q.options, (o.word = some q.correctWord ↔ o.lane = q.correctLane)) ∧
      ∃ d0 d1 : Word,
        (q.options.filterMap QOption.word).Perm [q.correctWord, d0, d1] ∧
        d0.target ≠ q.correctWord.target ∧
        d1.target ≠ q.correctWord.target ∧ d0.target ≠ d1.target := by
  have hne : pool ≠ [] := by
    intro h
    subst h
    simp [targetSet] at hcard
  obtain ⟨c, hc, hcm, hca, heq⟩ :=
    generateQuestion_custom_eq gw pool recent hsk r hne
  have hlen2 : (getDistractors c hsk pool r.catTape r.poolTape).length = 2 :=
    getDistractors_length_eq_two c hsk pool r.catTape r.poolTape
      (filtered_targetSet_card c pool hcard)
  have hbasic := getDistractors_basic c hsk pool r.catTape r.poolTape
  obtain ⟨d0, d1, hds⟩ : ∃ d0 d1,
      getDistractors c hsk pool r.catTape r.poolTape = [d0, d1] := by
    rcases hl : getDistractors c hsk pool r.catTape r.poolTape with
      _ | ⟨e0, _ | ⟨e1, _ | _⟩⟩ <;> simp_all
  have h0t : d0.target ≠ c.target :=
    (hbasic.1 d0 (by rw [hds]; simp)).2
  have h1t : d1.target ≠ c.target :=
    (hbasic.1 d1 (by rw [hds]; simp)).2
  have h01 : d0.target ≠ d1.target := by
    have hp := hbasic.2.1
    rw [hds] at hp
    exact (List.pairwise_cons.mp hp).1 d1 (List.mem_singleton.mpr rfl)
  have h0c : some d0 ≠ some c := by
    intro h
    exact h0t (congrArg Word.target (Option.some.inj h))
  have h1c : some d1 ≠ some c := by
    intro h
    exact h1t (congrArg Word.target (Option.some.inj h))
  rw [hds] at heq
  have hmod : r.lanePick % 3 = 0 ∨ r.lanePick % 3 = 1 ∨ r.lanePick % 3 = 2 := by
    omega
  rcases hmod with hm | hm | hm <;> rw [hm] at heq
  · rw [optionsLoop_zero] at heq
    refine ⟨_, _, heq, rfl, rfl, by simp [lanesList], ?_, d0, d1, ?_, h0t, h1t, h01⟩
    · intro o ho
      simp only [List.mem_cons, List.not_mem_nil, or_false] at ho
      rcases ho with rfl | rfl | rfl
      · simp [lanesList]
      · simp only [lanesList]
        constructor
        · intro h
          exact absurd h (by simpa using h0c)
        · intro h
          simp at h
      · simp only [lanesList]
        constructor
        · intro h
          exact absurd h (by simpa using h1c)
        · intro h
          simp at h
    · simp [List.filterMap]
  · rw [optionsLoop_one] at heq
    refine ⟨_, _, heq, rfl, rfl, by simp [lanesList], ?_, d0, d1, ?_, h0t, h1t, h01⟩
    · intro o ho
      simp only [List.mem_cons, List.not_mem_nil, or_false] at ho
      rcases ho with rfl | rfl | rfl
      · simp only [lanesList]
        constructor
        · intro h
          exact absurd h (by simpa using h0c)
        · intro h
          simp at h
      · simp [lanesList]
      · simp only [lanesList]
        constructor
        · intro h
          exact absurd h (by simpa using h1c)
        · intro h
          simp at h
    · simp only [List.filterMap]
      exact List.Perm.swap c d0 [d1]
  · rw [optionsLoop_two] at heq
    refine ⟨_, _, heq, rfl, rfl, by simp [lanesList], ?_, d0, d1, ?_, h0t, h1t, h01⟩
    · intro o ho
      simp only [List.mem_cons, List.not_mem_nil, or_false] at ho
      rcases ho with rfl | rfl | rfl
      · simp only [lanesList]
        constructor
        · intro h
          exact absurd h (by simpa using h0c)
        · intro h
          simp at h
      · simp only [lanesList]
        constructor
        · intro h
          exact absurd h (by simpa using h1c)
        · intro h
          simp at h
      · simp [lanesList]
    · simp only [List.filterMap]
      have hp1 : ([d0, d1, c] : List Word).Perm [d0, c, d1] :=
        (List.Perm.swap c d1 []).cons d0
      have hp2 : ([d0, c, d1] : List Word).Perm [c, d0, d1] :=
        List.Perm.swap c d0 [d1]
      exact hp1.trans hp2

/-- Shape facts of the option-assembly loop that hold for any distractor
list of length at most 2: three options, lanes in order, the correct word at
the correct lane index, and one defined word per available distractor. -/
lemma optionsLoop_degrade (c : Word) (ds : List Word) (cIdx : ℕ)
    (hmod : cIdx = 0 ∨ cIdx = 1 ∨ cIdx = 2) (hlen : ds.length ≤ 2) :
    (optionsLoop cIdx c ds 0 0 3).length = 3 ∧
    (optionsLoop cIdx c ds 0 0 3).map QOption.lane = lanesList ∧
    ({ lane := lanesList.getD cIdx Lane.left, word := some c } : QOption) ∈
      optionsLoop cIdx c ds 0 0 3 ∧
    (optionsLoop cIdx c ds 0 0 3).countP (fun o => o.word.isSome) =
      1 + ds.length := by
  rcases hmod with rfl | rfl | rfl <;>
    rcases ds with _ | ⟨d0, _ | ⟨d1, _ | ⟨d2, tl⟩⟩⟩ <;>
    simp_all [optionsLoop_zero, optionsLoop_one, optionsLoop_two, lanesList,
      List.countP_cons]

/-! ## Claim theorems for degraded pools -/

/-- Sample random draws: all zero picks. -/
def sampleRand : QRand :=
  { availablePick := 0, fallbackPick := 0, catTape := fun _ => 0,
    poolTape := fun _ => 0, lanePick := 0, modeHalf := true }

/-- Sample word for degraded-pool scenarios. -/
def sampleWord : Word :=
  { target := "shui", pronunciation := "shui3", english := "water",
    category := "noun" }

/-- C9 counterexample: with a pool of one single word the question is still
produced without failure, but it has 3 options and the two non-correct lanes
hold undefined (none) words, so not every produced option holds a defined
word. -/
theorem generateQuestion_degraded_counterexample :
    generateQuestion (fun _ => [])
        { recentWords := [], customWords := some [sampleWord] } 1 sampleRand =
      some ({ correctWord := sampleWord,
              options := [{ lane := Lane.left, word := some sampleWord },
                          { lane := Lane.center, word := none },
                          { lane := Lane.right, word := none }],
              correctLane := Lane.left,
              mode := QuestionMode.englishToTarget },
            { recentWords := ["shui"], customWords := some [sampleWord] }) ∧
    ¬ (∀ o ∈ [({ lane := Lane.left, word := some sampleWord } : QOption),
              { lane := Lane.center, word := none },
              { lane := Lane.right, word := none }], o.word ≠ none) := by
  exact ⟨rfl, by decide⟩

/-- C9 amended: for every non-empty candidate pool the call does not fail:
it returns a question with exactly 3 options (lanes left, center, right), the
correct word sitting at the correct lane; distractor generation degrades to
at most 2 distractors, and the number of options holding a defined word is
1 plus the number of distractors generated — lanes beyond the available
distractors hold undefined words rather than the question having fewer
options. -/
theorem generateQuestion_degrades (gw : ℕ → List Word) (pool : List Word)
    (recent : List String) (hsk : ℕ) (r : QRand) (hne : pool ≠ []) :
    ∃ q s2,
      generateQuestion gw { recentWords := recent, customWords := some pool }
        hsk r = some (q, s2) ∧
      q.options.length = 3 ∧
      q.options.map QOption.lane = lanesList ∧
      ({ lane := q.correctLane, word := some q.correctWord } : QOption) ∈
        q.options ∧
      q.options.countP (fun o => o.word.isSome) =
        1 + (getDistractors q.correctWord hsk pool r.catTape r.poolTape).length ∧
      (getDistractors q.correctWord hsk pool r.catTape r.poolTape).length ≤ 2 := by
  obtain ⟨c, hc, hcm, hca, heq⟩ :=
    generateQuestion_custom_eq gw pool recent hsk r hne
  have hb := getDistractors_basic c hsk pool r.catTape r.poolTape
  have hmod : r.lanePick % 3 = 0 ∨ r.lanePick % 3 = 1 ∨ r.lanePick % 3 = 2 := by
    omega
  obtain ⟨h1, h2, h3, h4⟩ := optionsLoop_degrade c
    (getDistractors c hsk pool r.catTape r.poolTape) (r.lanePick % 3) hmod
    hb.2.2
  exact ⟨_, _, heq, h1, h2, h3, h4, hb.2.2⟩

/-- C9 witness: the degradation theorem applied to the one-word pool. -/
theorem generateQuestion_degrades_witness :
    ∃ q s2,
      generateQuestion (fun _ => [])
        { recentWords := [], customWords := some [sampleWord] } 1 sampleRand =
        some (q, s2) ∧
      q.options.length = 3 ∧
      q.options.map QOption.lane = lanesList ∧
      ({ lane := q.correctLane, word := some q.correctWord } : QOption) ∈
        q.options ∧
      q.options.countP (fun o => o.word.isSome) =
        1 + (getDistractors q.correctWord 1 [sampleWord] sampleRand.catTape
          sampleRand.poolTape).length ∧
      (getDistractors q.correctWord 1 [sampleWord] sampleRand.catTape
        sampleRand.poolTape).length ≤ 2 :=
  generateQuestion_degrades (fun _ => []) [sampleWord] [] 1 sampleRand
    (by simp)

/-- C1 witness: the well-formedness theorem applied to a three-word pool. -/
theorem generateQuestion_wellformed_witness :
    ∃ q s2,
      generateQuestion (fun _ => [])
        { recentWords := [],
          customWords := some [sampleWord,
            { target := "huo", pronunciation := "huo3", english := "fire",
              category := "noun" },
            { target := "shan", pronunciation := "shan1",
              english := "mountain", category := "noun" }] } 1 sampleRand =
        some (q, s2) ∧
      q.options.length = 3 := by
  obtain ⟨q, s2, hq, _, hlen, _⟩ := generateQuestion_wellformed (fun _ => [])
    [sampleWord,
     { target := "huo", pronunciation := "huo3", english := "fire",
       category := "noun" },
     { target := "shan", pronunciation := "shan1", english := "mountain",
       category := "noun" }] [] 1 sampleRand (by decide)
  exact ⟨q, s2, hq, hlen⟩

/-! ## Recency buffer -/

/-- A pool with at least 21 distinct target texts always has a word whose
target is outside a recency buffer of at most 20 entries. -/
lemma exists_nonRecent (pool : List Word) (recent : List String)
    (hcard : 21 ≤ (targetSet pool).card) (hlen : recent.length ≤ 20) :
    pool.filter (fun w => !(recent.contains w.target)) ≠ [] := by
  intro hemp
  rw [List.filter_eq_nil_iff] at hemp
  have hsub : targetSet pool ⊆ recent.toFinset := by
    intro x hx
    simp only [targetSet, List.mem_toFinset, List.mem_map] at hx
    obtain ⟨w, hw, he⟩ := hx
    have h1 := hemp w hw
    simp only [Bool.not_eq_true', Bool.not_eq_false] at h1
    rw [List.mem_toFinset, ← he]
    exact List.elem_iff.mp h1
  have h1 := Finset.card_le_card hsub
  have h2 : recent.toFinset.card ≤ recent.length :=
    List.toFinset_card_le recent
  omega

/-- FIFO update of a 20-bounded suffix: pushing one element onto the suffix
of the last 20 entries and evicting the oldest beyond 20 yields the suffix of
the last 20 entries of the extended history. -/
lemma fifo_drop (hist : List String) (t : String) :
    pushRecent (hist.drop (hist.length - 20)) t =
      (hist ++ [t]).drop ((hist ++ [t]).length - 20) := by
  unfold pushRecent
  dsimp only
  by_cases h : hist.length < 20
  · have h0 : hist.length - 20 = 0 := by omega
    have h1 : (hist ++ [t]).length - 20 = 0 := by
      simp only [List.length_append, List.length_singleton]
      omega
    rw [h0, h1, List.drop_zero, List.drop_zero]
    have h2 : ¬ maxRecentWords < (hist ++ [t]).length := by
      simp only [maxRecentWords, List.length_append, List.length_singleton]
      omega
    simp only [h2, if_false]
  · have h20 : 20 ≤ hist.length := by omega
    have hlen : (hist.drop (hist.length - 20)).length = 20 := by
      rw [List.length_drop]
      omega
    have hcond : maxRecentWords <
        ((hist.drop (hist.length - 20)) ++ [t]).length := by
      simp only [maxRecentWords, List.length_append, List.length_singleton,
        hlen]
      omega
    rw [if_pos hcond]
    have hne : hist.drop (hist.length - 20) ≠ [] := by
      intro hemp
      rw [hemp] at hlen
      simp at hlen
    rw [List.tail_append_of_ne_nil hne, List.tail_drop]
    have harith : ((hist ++ [t]).length - 20) = (hist.length - 20) + 1 := by
      simp only [List.length_append, List.length_singleton]
      omega
    rw [harith, List.drop_append_of_le_length (by omega)]

/-- Every successful generateQuestion call keeps the recency buffer at 20 or
fewer entries. -/
lemma generateQuestion_recent_bound (gw : ℕ → List Word)
    (s : WordManagerState) (hsk : ℕ) (r : QRand) (q : WordQuestion)
    (s2 : WordManagerState)
    (h : generateQuestion gw s hsk r = some (q, s2))
    (hlen : s.recentWords.length ≤ 20) : s2.recentWords.length ≤ 20 := by
  simp only [generateQuestion] at h
  rcases hp : pickCorrectWord
      (match s.customWords with
       | some cw => if 0 < cw.length then cw else getAvailableWords gw hsk
       | none => getAvailableWords gw hsk)
      ((match s.customWords with
        | some cw => if 0 < cw.length then cw else getAvailableWords gw hsk
        | none => getAvailableWords gw hsk).filter
        (fun w => !(s.recentWords.contains w.target)))
      r.availablePick r.fallbackPick with _ | c
  · rw [hp] at h
    simp at h
  · rw [hp] at h
    simp only [Option.some.injEq, Prod.mk.injEq] at h
    obtain ⟨_, h2⟩ := h
    rw [← h2]
    dsimp only [pushRecent]
    split
    · rename_i hcond
      simp only [List.length_tail, List.length_append, List.length_singleton]
      omega
    · rename_i hcond
      simp only [maxRecentWords, List.length_append, List.length_singleton]
        at hcond ⊢
      omega

/-- Unfolding of one successful step of a run. -/
lemma generateRun_cons (gw : ℕ → List Word) (hsk : ℕ) (s : WordManagerState)
    (r : QRand) (rs : List QRand) (q : WordQuestion) (s2 : WordManagerState)
    (h : generateQuestion gw s hsk r = some (q, s2)) :
    generateRun gw hsk s (r :: rs) =
      (q.correctWord :: (generateRun gw hsk s2 rs).1,
       (generateRun gw hsk s2 rs).2) := by
  simp only [generateRun, h]

/-- Core invariant of the recency mechanism: running generateQuestion over a
pool of at least 21 distinct target texts from a state whose buffer holds the
last (up to) 20 entries of the selection history keeps the buffer equal to
the last (up to) 20 entries of the extended history, and no selected target
repeats one of the previous 20 selections. -/
lemma generateRun_window_aux (gw : ℕ → List Word) (hsk : ℕ)
    (pool : List Word) (hcard : 21 ≤ (targetSet pool).card) :
    ∀ (rs : List QRand) (hist : List String) (s : WordManagerState),
      s.recentWords = hist.drop (hist.length - 20) →
      s.customWords = some pool →
      (∀ i j : ℕ, hist.length ≤ j → i < j → j ≤ i + 20 →
        j < (hist ++ (generateRun gw hsk s rs).1.map Word.target).length →
        (hist ++ (generateRun gw hsk s rs).1.map Word.target)[i]? ≠
          (hist ++ (generateRun gw hsk s rs).1.map Word.target)[j]?) ∧
      (generateRun gw hsk s rs).2.recentWords =
        (hist ++ (generateRun gw hsk s rs).1.map Word.target).drop
          ((hist ++ (generateRun gw hsk s rs).1.map Word.target).length - 20)
    := by
  intro rs
  induction rs with
  | nil =>
    intro hist s hrec hcust
    constructor
    · intro i j hj hij hwin hjlen
      simp only [generateRun, List.map_nil, List.append_nil] at hjlen
      omega
    · simpa [generateRun] using hrec
  | cons r rest ih =>
    intro hist s hrec hcust
    have hne : pool ≠ [] := by
      intro hemp
      subst hemp
      simp [targetSet] at hcard
    have hs : s = { recentWords := s.recentWords, customWords := some pool } := by
      cases s
      simp_all
    obtain ⟨c, hc, hcm, hca, heq⟩ :=
      generateQuestion_custom_eq gw pool s.recentWords hsk r hne
    rw [← hs] at heq
    have hrecl : s.recentWords.length ≤ 20 := by
      rw [hrec, List.length_drop]
      omega
    have hcmem := hca (exists_nonRecent pool s.recentWords hcard hrecl)
    have hnotin : c.target ∉ s.recentWords := by
      have h1 := (List.mem_filter.mp hcmem).2
      simp only [Bool.not_eq_eq_eq_not, Bool.not_true, List.contains] at h1
      intro hmem
      have h2 : s.recentWords.elem c.target = true := List.elem_iff.mpr hmem
      rw [h1] at h2
      exact Bool.false_ne_true h2
    have hrun := generateRun_cons gw hsk s r rest _ _ heq
    have hinv2 : (({ recentWords := pushRecent s.recentWords c.target,
                     customWords := some pool } : WordManagerState)).recentWords =
        (hist ++ [c.target]).drop ((hist ++ [c.target]).length - 20) := by
      dsimp only
      rw [hrec]
      exact fifo_drop hist c.target
    obtain ⟨ihw, ihs⟩ := ih (hist ++ [c.target])
      { recentWords := pushRecent s.recentWords c.target,
        customWords := some pool } hinv2 rfl
    rw [hrun]
    dsimp only
    simp only [List.map_cons]
    rw [List.append_cons]
    have hlen2 : (hist ++ [c.target]).length = hist.length + 1 := by
      simp
    constructor
    · intro i j hj hij hwin hjlen
      by_cases hcase : hist.length + 1 ≤ j
      · exact ihw i j (by omega) hij hwin hjlen
      · have hjeq : j = hist.length := by omega
        subst hjeq
        have hilt : i < hist.length := hij
        have hjv : ((hist ++ [c.target]) ++
            (generateRun gw hsk
              { recentWords := pushRecent s.recentWords c.target,
                customWords := some pool }
              rest).1.map Word.target)[hist.length]? = some c.target := by
          rw [List.getElem?_append_left (by simp)]
          exact List.getElem?_concat_length hist c.target
        have hiv : ((hist ++ [c.target]) ++
            (generateRun gw hsk
              { recentWords := pushRecent s.recentWords c.target,
                customWords := some pool }
              rest).1.map Word.target)[i]? = hist[i]? := by
          rw [List.getElem?_append_left (by simp; omega)]
          exact List.getElem?_append_left hilt
        rw [hiv, hjv, List.getElem?_eq_getElem hilt]
        intro hcontra
        have hval : hist[i] = c.target := Option.some.inj hcontra
        have hgi : (hist.drop (hist.length - 20))[i - (hist.length - 20)]? =
            some hist[i] := by
          rw [List.getElem?_drop]
          have harr : hist.length - 20 + (i - (hist.length - 20)) = i := by
            omega
          rw [harr, List.getElem?_eq_getElem hilt]
        have hmem : hist[i] ∈ hist.drop (hist.length - 20) :=
          List.getElem?_mem hgi
        rw [← hrec, hval] at hmem
        exact hnotin hmem
    · exact ihs

/-- C6: the recency buffer is bounded by 20 entries across every successful
call, and over any run from a fresh manager on a pool with at least 21
distinct target texts the buffer always equals the trailing (up to) 20
selected targets — oldest evicted first — and no target is selected twice
within 20 questions of a previous selection. -/
theorem recency_buffer_window (gw : ℕ → List Word) (hsk : ℕ)
    (pool : List Word) (rs : List QRand)
    (hcard : 21 ≤ (targetSet pool).card) :
    (∀ (s : WordManagerState) (r : QRand) (q : WordQuestion)
        (s2 : WordManagerState),
      generateQuestion gw s hsk r = some (q, s2) →
      s.recentWords.length ≤ 20 → s2.recentWords.length ≤ 20) ∧
    ((generateRun gw hsk
        { recentWords := [], customWords := some pool } rs).2.recentWords =
      ((generateRun gw hsk
        { recentWords := [], customWords := some pool } rs).1.map
          Word.target).drop
        (((generateRun gw hsk
          { recentWords := [], customWords := some pool } rs).1.map
            Word.target).length - 20)) ∧
    (∀ i j : ℕ, i < j → j ≤ i + 20 →
      j < ((generateRun gw hsk
        { recentWords := [], customWords := some pool } rs).1.map
          Word.target).length →
      ((generateRun gw hsk
        { recentWords := [], customWords := some pool } rs).1.map
          Word.target)[i]? ≠
        ((generateRun gw hsk
          { recentWords := [], customWords := some pool } rs).1.map
            Word.target)[j]?) := by
  have haux := generateRun_window_aux gw hsk pool hcard rs []
    { recentWords := [], customWords := some pool } rfl rfl
  obtain ⟨hwin, hsuf⟩ := haux
  refine ⟨?_, ?_, ?_⟩
  · intro s r q s2 h hlen
    exact generateQuestion_recent_bound gw s hsk r q s2 h hlen
  · simpa using hsuf
  · intro i j hij hwin2 hjlen
    have := hwin i j (by simp) hij hwin2 (by simpa using hjlen)
    simpa using this

/-- Vocabulary pool of 21 words with pairwise distinct target texts. -/
def samplePool21 : List Word :=
  (List.range 21).map (fun n =>
    { target := toString n, pronunciation := "", english := "",
      category := "" })

/-- C6 witness: the recency theorem applied to the 21-word sample pool. -/
theorem recency_buffer_window_witness :
    (generateRun (fun _ => []) 1
        { recentWords := [], customWords := some samplePool21 }
        [sampleRand]).2.recentWords =
      ((generateRun (fun _ => []) 1
        { recentWords := [], customWords := some samplePool21 }
        [sampleRand]).1.map Word.target).drop
        (((generateRun (fun _ => []) 1
          { recentWords := [], customWords := some samplePool21 }
          [sampleRand]).1.map Word.target).length - 20) :=
  (recency_buffer_window (fun _ => []) 1 samplePool21 [sampleRand]
    (by decide)).2.1

/-! ## Claim theorem for pause behavior -/

/-- C8: gate progress in Game3D is computed from raw wall-clock elapsed time
(performance.now() - spawnTime) with no accounting for time spent paused, so
the progress seen on the first tick after a resume is strictly larger than
the progress at the moment of pause; concretely a gate spawned at 0 with
speed 1 sits at progress 1/4 when paused at 1000 ms and jumps to 3/2 when
resumed at 6000 ms. -/
theorem gate_progress_not_pause_invariant :
    (∀ spawn pauseT resumeT speed : ℚ, 0 < speed → pauseT < resumeT →
      game3dGateProgress pauseT spawn speed <
        game3dGateProgress resumeT spawn speed) ∧
    game3dGateProgress 1000 0 1 = 1/4 ∧
    game3dGateProgress 6000 0 1 = 3/2 ∧
    game3dGateProgress 6000 0 1 ≠ game3dGateProgress 1000 0 1 := by
  refine ⟨?_, ?_, ?_, ?_⟩
  · intro spawn p r speed hsp hpr
    unfold game3dGateProgress GATE_TRAVEL_TIME_3D
    have hden : (0 : ℚ) < 4000 / speed := by positivity
    exact div_lt_div_of_pos_right (by linarith) hden
  all_goals norm_num [game3dGateProgress, GATE_TRAVEL_TIME_3D]

/-- C8 witness: the strict-growth part applied across the pause from 1000 ms
to 6000 ms. -/
theorem gate_progress_not_pause_invariant_witness :
    game3dGateProgress 1000 0 1 < game3dGateProgress 6000 0 1 :=
  gate_progress_not_pause_invariant.1 0 1000 6000 1 (by norm_num) (by norm_num)

end WordRunner
